import Mathlib

/-!
Shallow embedding of the GRANDPA parachain light client of composable-ibc,
translated from `src/light-clients/ics10-grandpa/src/client_def.rs`.

Conventions of the embedding:
* 32-byte hashes (`H256`) are represented as `Nat`; a relay-chain header
  carries its BLAKE2-256 hash as a field (hashing is a host capability in the
  source, abstracted here).
* `u32`/`u64` quantities are `Nat`.  Heights are far below `2 ^ 32` on every
  reachable input, so wrap-around of the height arithmetic is not modelled;
  the one place where `u64` overflow is semantically load-bearing (the
  authority-change pruning deadline) models the overflow check explicitly
  against `2 ^ 64`.
* Fallible Rust code returns `Except GErr`; a Rust panic
  (`unreachable!` / `expect`) is the distinguished error `GErr.fatal`,
  so that panics and typed errors stay distinguishable.
* Code of the repository that lives outside `src/` (the grandpa client
  primitives, the ibc timestamp type, the client-state accessors) is
  modelled from the spec; each such definition says so in its doc comment.
-/

namespace GrandpaLC

/-- A GRANDPA authority: an ed25519 public key together with its voting
weight (`AuthorityId`, `AuthorityWeight` in the source). -/
structure Authority where
  key : Nat
  weight : Nat
deriving DecidableEq, Repr

/-- One entry of the authority-set ledger
(`AuthoritiesChange` in `client_state.rs`): the set `authorities` with id
`set_id` activates at relay height `height`; `timestamp` (nanoseconds) is
the host time at which the entry was inserted, used for pruning. -/
structure AuthoritiesChange where
  height : Nat
  timestamp : Nat
  set_id : Nat
  authorities : List Authority
deriving DecidableEq, Repr

/-- A relay-chain header (`RelayChainHeader`): block number, parent hash and
state root, plus its own BLAKE2-256 hash carried as data. -/
structure RelayChainHeader where
  number : Nat
  parent_hash : Nat
  state_root : Nat
  hash : Nat
deriving DecidableEq, Repr

/-- The GRANDPA light client state (`ClientState` in `client_state.rs`).
`authorities_changes` is a `Vec1` (non-empty vector) in the source; it is a
plain list here and the theorems that need non-emptiness assume it. -/
structure ClientState where
  relay_chain : Nat
  para_id : Nat
  latest_relay_hash : Nat
  latest_relay_height : Nat
  latest_para_height : Nat
  frozen_height : Option (Nat × Nat)
  authorities_changes : List AuthoritiesChange
deriving DecidableEq, Repr

/-- A parachain consensus state (`ConsensusState`): commitment root and
timestamp in nanoseconds. -/
structure CState where
  root : Nat
  timestamp : Nat
deriving DecidableEq, Repr

/-- A decoded GRANDPA justification, reduced to the fields `client_def.rs`
inspects directly: the commit target hash.  `tag` lets concrete instances
tell distinct justifications apart; signature data lives behind the abstract
verification function of `Env`. -/
structure Justification where
  commit_target_hash : Nat
  tag : Nat
deriving DecidableEq, Repr

/-- `FinalityProof`: the finalized block hash, the SCALE-encoded
justification bytes and the batch of headers needed to reconstruct the
ancestry. -/
structure FinalityProof where
  block : Nat
  justification : List Nat
  unknown_headers : List RelayChainHeader
deriving DecidableEq, Repr

/-- The `Misbehaviour` client message: two finality proofs alleged to
finalize conflicting chains. -/
structure Misbehaviour where
  first_finality_proof : FinalityProof
  second_finality_proof : FinalityProof
deriving DecidableEq, Repr

/-- The `Header` client message.  `parachain_headers` is a
`BTreeMap<H256, ParachainHeaderProofs>` in the source, modelled as an
association list; a parachain-header proof is opaque (`Nat`).
`height` is the pair (revision_number, revision_height). -/
structure GrandpaHeader where
  finality_proof : FinalityProof
  parachain_headers : List (Nat × Nat)
  height : Nat × Nat
deriving DecidableEq, Repr

/-- The `ClientMessage` sum type. -/
inductive ClientMessage where
  | header (h : GrandpaHeader)
  | misbehaviour (m : Misbehaviour)
deriving DecidableEq, Repr

/-- Error outcomes of the light client.  The source wraps almost everything
in `Error::Custom(String)`; each constructor below stands for one distinct
message site in `client_def.rs`.  `fatal` models a Rust panic
(`unreachable!` or a failing `expect`), kept distinct from typed errors. -/
inductive GErr where
  | paraIdMismatch
  | sameBlock
  | emptyHeaders
  | chainMismatch
  | invalidAncestry
  | notSameAncestor
  | noDivergence
  | unknownAncestor
  | decodeFirstJustification
  | decodeSecondJustification
  | justificationTargetMismatch
  | invalidJustification
  | missingHeader
  | heightMismatch
  | relayRewind
  | paraRewind
  | missingConsensus
  | typeMismatch
  | codec
  | invalidUpgradeProof
  | upgradeHeightNotGreater
  | extraction
  | pipeline
  | fatal
deriving DecidableEq, Repr

/-- Is this error the model of a Rust panic? -/
def GErr.isFatal : GErr → Bool
  | .fatal => true
  | _ => false

/-- Lift an `Option` into `Except`, erroring with `e` on `none`
(the `ok_or_else` idiom of the source). -/
def fromOption (e : GErr) : Option α → Except GErr α
  | some a => .ok a
  | none => .error e

/-- `Except` bind on a success, as a rewrite rule. -/
theorem except_bind_ok (a : α) (f : α → Except GErr β) :
    (Except.ok a >>= f : Except GErr β) = f a := rfl

/-- `Except` bind on an error, as a rewrite rule. -/
theorem except_bind_error (e : GErr) (f : α → Except GErr β) :
    ((Except.error e : Except GErr α) >>= f) = Except.error e := rfl

/-- `throw` on `Except GErr` is `Except.error`, as a rewrite rule. -/
theorem except_throw_eq (e : GErr) :
    (throw e : Except GErr α) = Except.error e := rfl

/-- `pure` on `Except GErr` is `Except.ok`, as a rewrite rule. -/
theorem except_pure_eq (a : α) : (pure a : Except GErr α) = Except.ok a := rfl

/-- A scheduled (or forced) authority-set change as found in a header digest
(`sp_consensus_grandpa::ScheduledChange`): the next authorities and the
activation delay in blocks. -/
structure ScheduledChange where
  delay : Nat
  next_authorities : List Authority
deriving DecidableEq, Repr

/-- The host/primitive capability bundle.  These are functions of the
repository that live outside `src/` (grandpa-client-primitives, the codec,
the storage-proof machinery) or behind the `HostFunctions` trait; they enter
the embedding as abstract computable functions. -/
structure Env where
  /-- `GrandpaJustification::decode`: SCALE decoding of justification bytes;
  `none` models a decode failure. -/
  decodeJustification : List Nat → Option Justification
  /-- `GrandpaJustification::verify(set_id, authorities)`: cryptographic
  verification of a justification under an authority set;
  `true` models `is_ok()`. -/
  verifyJustification : Nat → List Authority → Justification → Bool
  /-- `HostFunctions::contains_relay_header_hash`: the host's persistent set
  of known (already finalized) relay-header hashes. -/
  containsRelayHeaderHash : Nat → Bool
  /-- `find_scheduled_change` over a header's digest. -/
  findScheduledChange : RelayChainHeader → Option ScheduledChange
  /-- `find_forced_change` over a header's digest. -/
  findForcedChange : RelayChainHeader → Option ScheduledChange
  /-- `ConsensusState::from_header(proof, para_id, state_root)`: the
  consensus-state extractor.  Returns the parachain height as
  (revision_number, revision_height) together with the new consensus state. -/
  fromHeader : Nat → Nat → Nat → Except GErr ((Nat × Nat) × CState)
  /-- `grandpa_client::verify_parachain_headers_with_grandpa_finality_proof`,
  the full pipeline invoked by the `Header` arm of `verify_client_message`.
  Modelled from the spec: the pipeline crate is not under `src/`. -/
  verifyHeaderPipeline : ClientState → GrandpaHeader → Except GErr Unit

/-- The host context (`ReaderContext`), restricted to the operations
`client_def.rs` consumes during updates and misbehaviour checks. -/
structure Ctx where
  /-- `ctx.consensus_state(client_id, height).is_ok()`: is a consensus state
  stored at this height? -/
  hasConsensusState : Nat × Nat → Bool
  /-- `ctx.maybe_consensus_state(client_id, height)` followed by the
  downcast to the grandpa `ConsensusState` (the downcast of a value this
  client stored always succeeds, so it is not a separate outcome here). -/
  maybeConsensusState : Nat × Nat → Option CState
  /-- `ctx.host_timestamp()` in nanoseconds. -/
  host_timestamp : Nat

/-- `Iterator::max_by_key(|h| h.number)` as used on `unknown_headers`:
Rust returns the LAST maximal element. -/
def maxByNumber : List RelayChainHeader → Option RelayChainHeader
  | [] => none
  | x :: xs => some (xs.foldl (fun acc y => if acc.number ≤ y.number then y else acc) x)

/-- `Iterator::min_by_key(|h| h.number)`: Rust returns the FIRST minimal
element. -/
def minByNumber : List RelayChainHeader → Option RelayChainHeader
  | [] => none
  | x :: xs => some (xs.foldl (fun acc y => if y.number < acc.number then y else acc) x)

/-- `maxByNumber` of the empty batch, as a rewrite rule. -/
theorem maxByNumber_nil : maxByNumber [] = none := rfl

/-- `minByNumber` of the empty batch, as a rewrite rule. -/
theorem minByNumber_nil : minByNumber [] = none := rfl

/-- `AncestryChain::<RelayChainHeader>::new`: an index over a batch of
candidate relay headers, keyed by header hash. -/
structure AncestryChain where
  headers : List RelayChainHeader
deriving DecidableEq, Repr

/-- Constructor `AncestryChain::new`. -/
def AncestryChain.new (hs : List RelayChainHeader) : AncestryChain := ⟨hs⟩

/-- `AncestryChain::header(hash)`: lookup in the header map.  The source
collects into a `BTreeMap`, where a later duplicate hash overwrites an
earlier one, hence the search over the reversed list. -/
def AncestryChain.header (c : AncestryChain) (h : Nat) : Option RelayChainHeader :=
  c.headers.reverse.find? (fun x => x.hash == h)

/-- Worker for `AncestryChain.ancestry`, with explicit fuel bounding the
walk by the supplied header count. -/
def ancestryGo (c : AncestryChain) (base : Nat) : Nat → Nat → Except GErr (List Nat)
  | _, 0 => .error .invalidAncestry
  | cur, fuel + 1 =>
    if cur = base then .ok [cur]
    else
      match c.header cur with
      | none => .error .invalidAncestry
      | some h => (ancestryGo c base h.parent_hash fuel).map (fun rest => cur :: rest)

/-- Modelled from the spec: `AncestryChain::ancestry` lives in
grandpa-client-primitives, which is not under `src/`.  Spec 4.1: walk parent
pointers from `block` back until `base` is reached, bounded by the supplied
header count.  The returned path includes both endpoints — this is the one
convention coherent with the length arithmetic of `update_state`
(`target.number == latest_relay_height + finalized.len() - 1`, spec 4.6.2)
and of the misbehaviour candidate heights
(`base_number + finalized_len - 1`, spec 4.6.1). -/
def AncestryChain.ancestry (c : AncestryChain) (base block : Nat) : Except GErr (List Nat) :=
  ancestryGo c base block (c.headers.length + 1)

/-- Rust `slice::binary_search_by_key(&height, |x| x.height)` collapsed with
`unwrap_or_else(identity)`, as in the `get_authorities` closure.  On a
height-sorted ledger the contract of `binary_search_by_key` determines the
result uniquely: the index of the first entry with `height ≤` its key field
(`Ok` at an exact match, the insertion point otherwise), or the length when
every entry is below the query. -/
def bsearchHeight (l : List AuthoritiesChange) (h : Nat) : Nat :=
  l.findIdx (fun c => h ≤ c.height)

/-- The `get_authorities` closure of `verify_client_message`
(client_def.rs:216-229): index the ledger at the collapsed binary-search
position; fall back to the most recent entry when the position is past the
end.  `none` can only arise on an empty ledger, which the source's `Vec1`
rules out. -/
def get_authorities (l : List AuthoritiesChange) (h : Nat) : Option (Nat × List Authority) :=
  match l[bsearchHeight l h]? with
  | some c => some (c.set_id, c.authorities)
  | none => l.getLast?.map (fun c => (c.set_id, c.authorities))

/-- The authority lookup as the SPEC words it (for comparison with
`get_authorities`): the change with the greatest `height ≤ h`, or the latest
entry when no entry has `height ≤ h`. -/
def get_authorities_spec (l : List AuthoritiesChange) (h : Nat) : Option (Nat × List Authority) :=
  match (l.filter (fun c => c.height ≤ h)).getLast? with
  | some c => some (c.set_id, c.authorities)
  | none => l.getLast?.map (fun c => (c.set_id, c.authorities))

/-- One candidate of the misbehaviour loop body (client_def.rs:211-245):
recompute both target heights from the candidate base number and the two
finalized path lengths, resolve the authority sets from the ledger, and
check that both justifications verify. -/
def candidateValid (env : Env) (cs : ClientState) (j1 j2 : Justification)
    (len1 len2 bn : Nat) : Bool :=
  let h1 := bn + len1 - 1
  let h2 := bn + len2 - 1
  match get_authorities cs.authorities_changes h1,
        get_authorities cs.authorities_changes h2 with
  | some (s1, a1), some (s2, a2) =>
      env.verifyJustification s1 a1 j1 && env.verifyJustification s2 a2 j2
  | _, _ => false

/-- The `Misbehaviour` arm of `verify_client_message`
(client_def.rs:114-248), check for check in source order. -/
def verifyMisbehaviour (env : Env) (cs : ClientState) (m : Misbehaviour) :
    Except GErr Unit := do
  let fp1 := m.first_finality_proof
  let fp2 := m.second_finality_proof
  if fp1.block = fp2.block then
    throw GErr.sameBlock
  let chain1 := AncestryChain.new fp1.unknown_headers
  let t1 ← fromOption .emptyHeaders (maxByNumber fp1.unknown_headers)
  let chain2 := AncestryChain.new fp2.unknown_headers
  let t2 ← fromOption .emptyHeaders (maxByNumber fp2.unknown_headers)
  if t1.hash ≠ fp1.block ∨ t2.hash ≠ fp2.block then
    throw GErr.chainMismatch
  let b1 ← fromOption .emptyHeaders (minByNumber fp1.unknown_headers)
  let f1 ← (chain1.ancestry b1.hash t1.hash).mapError (fun _ => GErr.invalidAncestry)
  let b2 ← fromOption .emptyHeaders (minByNumber fp2.unknown_headers)
  let f2 ← (chain2.ancestry b2.hash t2.hash).mapError (fun _ => GErr.invalidAncestry)
  if b1.parent_hash ≠ b2.parent_hash then
    throw GErr.notSameAncestor
  if ¬ (f1.zip f2).any (fun p => p.1 ≠ p.2) then
    throw GErr.noDivergence
  if ¬ env.containsRelayHeaderHash b1.parent_hash then
    throw GErr.unknownAncestor
  let j1 ← fromOption .decodeFirstJustification (env.decodeJustification fp1.justification)
  let j2 ← fromOption .decodeSecondJustification (env.decodeJustification fp2.justification)
  if fp1.block ≠ j1.commit_target_hash ∨ fp2.block ≠ j2.commit_target_hash then
    throw GErr.justificationTargetMismatch
  let base_numbers := if b1.number = b2.number then [b1.number] else [b1.number, b2.number]
  if base_numbers.any (candidateValid env cs j1 j2 f1.length f2.length) then
    pure ()
  else
    throw GErr.invalidJustification

/-- `verify_client_message` (client_def.rs:86-252): the `Header` arm rejects
on para-id mismatch and then delegates to the grandpa verification pipeline;
the `Misbehaviour` arm is `verifyMisbehaviour`. -/
def verify_client_message (env : Env) (cs : ClientState) :
    ClientMessage → Except GErr Unit
  | .header h =>
    if cs.para_id ≠ h.height.1 then .error .paraIdMismatch
    else env.verifyHeaderPipeline cs h
  | .misbehaviour m => verifyMisbehaviour env cs m

/-- `AUTHORITIES_CHANGE_ITEM_LIFETIME` from `client_state.rs` (not under
`src/`).  Modelled from the spec: 30 days, in nanoseconds. -/
def AUTHORITIES_CHANGE_ITEM_LIFETIME : Nat := 30 * 24 * 60 * 60 * 1000000000

/-- `AUTHORITIES_CHANGE_ITEM_MIN_COUNT` from `client_state.rs` (not under
`src/`).  Modelled from the spec: 100. -/
def AUTHORITIES_CHANGE_ITEM_MIN_COUNT : Nat := 100

/-- `2 ^ 64`, the modulus of `u64` nanosecond timestamps. -/
def U64MOD : Nat := 18446744073709551616

/-- Modelled from the spec: `ibc::timestamp::Timestamp + Duration`
(not under `src/`) errors when the nanosecond sum overflows `u64`. -/
def addLifetime (t : Nat) : Except Unit Nat :=
  if t + AUTHORITIES_CHANGE_ITEM_LIFETIME < U64MOD then
    .ok (t + AUTHORITIES_CHANGE_ITEM_LIFETIME)
  else
    .error ()

/-- Modelled from the spec: `ibc::timestamp::Timestamp::check_expiry`
(not under `src/`).  Spec 4.5 prunes "entries whose `timestamp + LIFETIME`
has expired relative to `now`", so `now.check_expiry(&deadline)` is
`Expired` exactly when `now` is past the deadline. -/
def checkExpiryExpired (now deadline : Nat) : Bool :=
  decide (deadline < now)

/-- The pruning filter of `update_state` (client_def.rs:354-375): keep the
newest `AUTHORITIES_CHANGE_ITEM_MIN_COUNT` entries unconditionally; keep any
other entry unless `now.check_expiry(timestamp + LIFETIME)` is `Expired`,
where an overflowing deadline is replaced by
`Timestamp::from_nanoseconds(1)` — i.e. 1 ns. -/
def pruneAuthoritiesChanges (now : Nat) (changes : List AuthoritiesChange) :
    List AuthoritiesChange :=
  let len := changes.length
  (changes.enum.filter (fun p =>
    if len - p.1 < AUTHORITIES_CHANGE_ITEM_MIN_COUNT then true
    else
      let deadline := match addLifetime p.2.timestamp with
        | .ok d => d
        | .error _ => 1
      ! checkExpiryExpired now deadline)).map Prod.snd

/-- Modelled from the spec: `ClientState::last_set_id` lives in
`client_state.rs` (not under `src/`); spec 4.5 pairs it with the ledger,
whose most recent entry carries the current set id. -/
def last_set_id (cs : ClientState) : Nat :=
  (cs.authorities_changes.getLast?).elim 0 (fun c => c.set_id)

/-- The consensus-state collection loop of `update_state`
(client_def.rs:280-305): for each `(relay_hash, proof)` entry, skip entries
whose relay hash is not in the finalized path (the source binary-searches a
sorted copy, i.e. membership); look up the relay header (typed error when
missing); extract `(height, consensus_state)`; skip entries whose height
the host has already stored; accumulate the rest in order. -/
def collectConsensusStates (env : Env) (ctx : Ctx) (pid : Nat)
    (anc : AncestryChain) (fin : List Nat) :
    List (Nat × Nat) → Except GErr (List ((Nat × Nat) × CState))
  | [] => .ok []
  | (relay_hash, proof) :: rest =>
    if relay_hash ∈ fin then do
      let hdr ← fromOption .missingHeader (anc.header relay_hash)
      let hc ← env.fromHeader proof pid hdr.state_root
      if ctx.hasConsensusState hc.1 then
        collectConsensusStates env ctx pid anc fin rest
      else do
        let out ← collectConsensusStates env ctx pid anc fin rest
        pure (hc :: out)
    else
      collectConsensusStates env ctx pid anc fin rest

/-- `update_state` (client_def.rs:254-392).  A `Misbehaviour` message hits
the source's `unreachable!` (modelled as `GErr.fatal`).  For a `Header`:
reconstruct the finalized path from the client's latest relay hash to the
proof's block, collect the new consensus states, enforce the target-number
sanity check and the no-rewind checks, advance the parachain and relay
cursors, and on a scheduled change prune the ledger and append the next
authority set. -/
def update_state (env : Env) (ctx : Ctx) (cs : ClientState) :
    ClientMessage → Except GErr (ClientState × List ((Nat × Nat) × CState))
  | .misbehaviour _ => .error .fatal
  | .header header => do
    let ancestry := AncestryChain.new header.finality_proof.unknown_headers
    let finalized ← (ancestry.ancestry cs.latest_relay_hash header.finality_proof.block).mapError
      (fun _ => GErr.invalidAncestry)
    let consensus_states ← collectConsensusStates env ctx cs.para_id ancestry finalized
      header.parachain_headers
    let target ← fromOption .fatal (ancestry.header header.finality_proof.block)
    if cs.latest_relay_height + finalized.length - 1 ≠ target.number then
      throw GErr.heightMismatch
    if target.number ≤ cs.latest_relay_height then
      throw GErr.relayRewind
    let heights := List.insertionSort (fun a b => a ≤ b)
      (consensus_states.map (fun p => p.1.2))
    let cs ← match heights.head?, heights.getLast? with
      | some minH, some maxH =>
        if minH ≤ cs.latest_para_height then throw GErr.paraRewind
        else pure { cs with latest_para_height := maxH }
      | _, _ => pure cs
    let cs := { cs with
      latest_relay_hash := header.finality_proof.block
      latest_relay_height := target.number }
    let cs := match env.findScheduledChange target with
      | none => cs
      | some sc =>
        let now := ctx.host_timestamp
        let next_set_id := last_set_id cs + 1
        let xs := pruneAuthoritiesChanges now cs.authorities_changes
        let xs := xs ++ [⟨target.number + sc.delay + 1, now, next_set_id, sc.next_authorities⟩]
        { cs with authorities_changes :=
            List.insertionSort (fun a b => a.height ≤ b.height) xs }
    pure (cs, consensus_states)

/-- A sequence of `update_state` calls, each feeding the client state of
the previous one (the host context of each call may differ). -/
def updateTrace (env : Env) : ClientState → List (Ctx × ClientMessage) →
    Except GErr ClientState
  | cs, [] => .ok cs
  | cs, (ctx, msg) :: rest => do
    let r ← update_state env ctx cs msg
    updateTrace env r.1 rest

/-- The inspection loop of `check_for_misbehaviour`
(client_def.rs:426-454): for each `(relay_hash, proof)` entry look up the
relay header (typed error when missing); report misbehaviour on a forced
change in its digest; extract the consensus state and report misbehaviour
when the host already stores a different one at that height. -/
def checkLoop (env : Env) (ctx : Ctx) (cs : ClientState) (anc : AncestryChain) :
    List (Nat × Nat) → Except GErr Bool
  | [] => .ok false
  | (relay_hash, proof) :: rest => do
    let hdr ← fromOption .missingHeader (anc.header relay_hash)
    if (env.findForcedChange hdr).isSome then
      pure true
    else do
      let hc ← env.fromHeader proof cs.para_id hdr.state_root
      match ctx.maybeConsensusState hc.1 with
      | some stored =>
        if stored ≠ hc.2 then pure true
        else checkLoop env ctx cs anc rest
      | none => checkLoop env ctx cs anc rest

/-- `check_for_misbehaviour` (client_def.rs:404-457): `true` immediately for
a `Misbehaviour` message; for a `Header`, run `checkLoop` over the
parachain-header entries.  The function never mutates the client state
(its type returns only the flag). -/
def check_for_misbehaviour (env : Env) (ctx : Ctx) (cs : ClientState) :
    ClientMessage → Except GErr Bool
  | .misbehaviour _ => .ok true
  | .header header =>
    checkLoop env ctx cs
      (AncestryChain.new header.finality_proof.unknown_headers)
      header.parachain_headers

/-- Modelled from the spec: `ClientState::latest_height` lives in
`client_state.rs` (not under `src/`); spec 6 fixes the convention
`(revision_number, revision_height) = (para_id, latest_para_height)`. -/
def latest_height (cs : ClientState) : Nat × Nat :=
  (cs.para_id, cs.latest_para_height)

/-- `ibc::Height` ordering: lexicographic on
(revision_number, revision_height). -/
def heightLeb (a b : Nat × Nat) : Bool :=
  decide (a.1 < b.1) || (decide (a.1 = b.1) && decide (a.2 ≤ b.2))

/-- The proof-side collaborators of `verify_upgrade_and_update_state`, all
outside `src/` (SCALE codec, `state_machine::read_proof_check`, protobuf
`Any`), as abstract computable functions. -/
structure UpgradeEnv where
  /-- `Decode::decode` of the `Vec<Vec<u8>>` of trie nodes. -/
  decodeNodes : List Nat → Option (List (List Nat))
  /-- `read_proof_check(root, proof, [key])` followed by
  `.remove(key).flatten()`: the value proven at `key` under `root`, with
  `none` covering both a failing proof and an absent key. -/
  readProofCheck : Nat → List (List Nat) → List Nat → Option (List Nat)
  /-- `Any::decode(value).value`: unwrap the protobuf `Any` envelope. -/
  decodeAnyValue : List Nat → Option (List Nat)
  /-- `Ctx::AnyClientState::wrap(..).encode_to_vec()`. -/
  encodeAnyClientState : ClientState → List Nat
  /-- `Ctx::AnyConsensusState::wrap(..).encode_to_vec()`. -/
  encodeAnyConsensusState : CState → List Nat

/-- The byte key `client-state-upgrade-path`, abstracted. -/
def CLIENT_STATE_UPGRADE_PATH : List Nat := [0]

/-- The byte key `consensus-state-upgrade-path`, abstracted. -/
def CONSENSUS_STATE_UPGRADE_PATH : List Nat := [1]

/-- `verify_upgrade_and_update_state` (client_def.rs:459-575): reject unless
the upgrade height is strictly greater; fetch the consensus state at the old
latest height and use its root as trusted state root; check both upgrade
proofs value-for-value; merge the old and upgrade client states and clear
the frozen height. -/
def verify_upgrade_and_update_state (uenv : UpgradeEnv) (ctx : Ctx)
    (old upg : ClientState) (upc : CState) (proofClient proofConsensus : List Nat) :
    Except GErr (ClientState × CState) := do
  let height := latest_height old
  if heightLeb (latest_height upg) height then
    throw GErr.upgradeHeightNotGreater
  let cons ← fromOption .missingConsensus (ctx.maybeConsensusState height)
  let root := cons.root
  let nodes1 ← fromOption .codec (uenv.decodeNodes proofClient)
  let encoded1 := uenv.encodeAnyClientState upg
  let value1 ← fromOption .invalidUpgradeProof
    (uenv.readProofCheck root nodes1 CLIENT_STATE_UPGRADE_PATH)
  let value1 ← fromOption .invalidUpgradeProof (uenv.decodeAnyValue value1)
  if value1 ≠ encoded1 then
    throw GErr.invalidUpgradeProof
  let nodes2 ← fromOption .codec (uenv.decodeNodes proofConsensus)
  let encoded2 := uenv.encodeAnyConsensusState upc
  let value2 ← fromOption .invalidUpgradeProof
    (uenv.readProofCheck root nodes2 CONSENSUS_STATE_UPGRADE_PATH)
  let value2 ← fromOption .invalidUpgradeProof (uenv.decodeAnyValue value2)
  if value2 ≠ encoded2 then
    throw GErr.invalidUpgradeProof
  pure ({ relay_chain := old.relay_chain
          latest_relay_height := upg.latest_relay_height
          latest_relay_hash := upg.latest_relay_hash
          frozen_height := none
          latest_para_height := upg.latest_para_height
          para_id := upg.para_id
          authorities_changes := upg.authorities_changes }, upc)

/-! ### Claim C1: the authority lookup of the misbehaviour path -/

/-- A concrete height-sorted ledger with three authority-set changes,
activating at relay heights 10, 20 and 30. -/
def c1Ledger : List AuthoritiesChange :=
  [⟨10, 0, 1, [⟨1, 1⟩]⟩, ⟨20, 0, 2, [⟨2, 1⟩]⟩, ⟨30, 0, 3, [⟨3, 1⟩]⟩]

/-- C1, counterexample.  On the non-empty, strictly height-sorted ledger
`c1Ledger` and query height 25, `get_authorities` returns set 3 (activation
height 30, the LEAST height ≥ 25), not set 2 (activation height 20, the
greatest height ≤ 25) that the claim demands: the collapsed binary search
lands on the insertion point, which is the first entry at or ABOVE the
query. -/
theorem c1_counterexample :
    c1Ledger.Pairwise (fun a b => a.height < b.height) ∧ c1Ledger ≠ [] ∧
    get_authorities c1Ledger 25 = some (3, [⟨3, 1⟩]) ∧
    get_authorities_spec c1Ledger 25 = some (2, [⟨2, 1⟩]) ∧
    get_authorities c1Ledger 25 ≠ get_authorities_spec c1Ledger 25 := by
  refine ⟨by decide, by decide, by decide, by decide, by decide⟩

/-- C1, amended.  For every client state whose `authorities_changes` ledger
is non-empty and strictly height-sorted, and every queried height `H`,
`get_authorities` returns the change entry with the LEAST height ≥ `H`
(in particular the exact entry when one activates at `H`); if no entry has
height ≥ `H`, it returns the latest (most recent) entry of the ledger. -/
theorem c1_get_authorities_least_geq (l : List AuthoritiesChange) (H : Nat)
    (hne : l ≠ []) (hs : l.Pairwise (fun a b => a.height < b.height)) :
    ∃ c, get_authorities l H = some (c.set_id, c.authorities) ∧ c ∈ l ∧
      ((∃ d ∈ l, H ≤ d.height) →
        H ≤ c.height ∧ ∀ d ∈ l, H ≤ d.height → c.height ≤ d.height) ∧
      ((∀ d ∈ l, d.height < H) → l.getLast? = some c) := by
  unfold get_authorities bsearchHeight
  set p : AuthoritiesChange → Bool := fun c => decide (H ≤ c.height) with hp
  by_cases hlt : l.findIdx p < l.length
  · refine ⟨l[l.findIdx p], ?_, List.getElem_mem hlt, ?_, ?_⟩
    · rw [List.getElem?_eq_getElem hlt]
    · intro _
      have hpc : p l[l.findIdx p] = true := List.findIdx_getElem
      refine ⟨by simpa [hp] using hpc, ?_⟩
      intro d hd hHd
      obtain ⟨j, hj, rfl⟩ := List.mem_iff_getElem.mp hd
      rcases Nat.lt_or_ge j (l.findIdx p) with hlt2 | hge
      · exact absurd (by simpa [hp] using List.not_of_lt_findIdx hlt2) (by simpa using hHd)
      · rcases Nat.eq_or_lt_of_le hge with heq | hlt2
        · simp [heq]
        · exact le_of_lt ((List.pairwise_iff_getElem.mp hs) _ _ hlt hj hlt2)
    · intro hall
      have hpc : p l[l.findIdx p] = true := List.findIdx_getElem
      have hH : H ≤ (l.get ⟨l.findIdx p, hlt⟩).height := of_decide_eq_true hpc
      have hmem := hall (l.get ⟨l.findIdx p, hlt⟩) (List.getElem_mem hlt)
      omega
  · have heq : l.findIdx p = l.length := Nat.le_antisymm (List.findIdx_le_length p) (Nat.le_of_not_lt hlt)
    have hnone : l[l.findIdx p]? = none := by
      rw [List.getElem?_eq_none_iff]; omega
    rw [hnone]
    have hlast := List.getLast?_eq_getLast l hne
    refine ⟨l.getLast hne, ?_, List.getLast_mem hne, ?_, fun _ => hlast⟩
    · simp [hlast]
    · intro hex
      exfalso
      obtain ⟨d, hd, hHd⟩ := hex
      have := List.findIdx_eq_length.mp heq d hd
      simp [hp] at this
      omega

/-- C1, witness: the amended theorem applied to the concrete ledger
`c1Ledger` at query height 25 produces the set-3 entry. -/
theorem c1_get_authorities_least_geq_witness :
    ∃ c, get_authorities c1Ledger 25 = some (c.set_id, c.authorities) ∧ c ∈ c1Ledger ∧
      ((∃ d ∈ c1Ledger, 25 ≤ d.height) →
        25 ≤ c.height ∧ ∀ d ∈ c1Ledger, 25 ≤ d.height → c.height ≤ d.height) ∧
      ((∀ d ∈ c1Ledger, d.height < 25) → c1Ledger.getLast? = some c) :=
  c1_get_authorities_least_geq c1Ledger 25 (by decide) (by decide)

/-! ### Claim C9: `update_state` on a `Misbehaviour` message -/

/-- C9.  For every environment, host context, client state and
`Misbehaviour` message, `update_state` hits the source's `unreachable!`
(modelled as the distinguished `GErr.fatal`, which `isFatal` recognises)
instead of returning a typed error: totality of `update_state` over the
public `ClientMessage` type holds only under the precondition that the
caller passes a `Header` variant. -/
theorem c9_update_state_misbehaviour_fatal (env : Env) (ctx : Ctx)
    (cs : ClientState) (m : Misbehaviour) :
    update_state env ctx cs (.misbehaviour m) = .error .fatal ∧
      GErr.fatal.isFatal = true :=
  ⟨rfl, rfl⟩

/-! ### Claim C10: misbehaviour with an empty `unknown_headers` list -/

/-- C10.  For every `Misbehaviour` message in which either finality proof
carries an empty `unknown_headers` list, `verify_client_message` returns a
typed error (never the `fatal` marker that models a panic): either the
same-block guard fires first, or the `max_by_key` / `min_by_key` lookup
fails with the "unknown headers cannot be empty" error. -/
theorem c10_misbehaviour_empty_headers_typed_error (env : Env)
    (cs : ClientState) (m : Misbehaviour)
    (h : m.first_finality_proof.unknown_headers = [] ∨
         m.second_finality_proof.unknown_headers = []) :
    ∃ e, verify_client_message env cs (.misbehaviour m) = .error e ∧
      e.isFatal = false := by
  by_cases hb : m.first_finality_proof.block = m.second_finality_proof.block
  · exact ⟨.sameBlock, by simp [verify_client_message, verifyMisbehaviour, hb,
      except_bind_ok, except_bind_error, except_throw_eq, except_pure_eq], rfl⟩
  · rcases h with h1 | h2
    · refine ⟨.emptyHeaders, ?_, rfl⟩
      simp [verify_client_message, verifyMisbehaviour, hb, h1, maxByNumber, fromOption,
        except_bind_ok, except_bind_error, except_throw_eq, except_pure_eq]
    · cases hm : maxByNumber m.first_finality_proof.unknown_headers with
      | none =>
        refine ⟨.emptyHeaders, ?_, rfl⟩
        simp [verify_client_message, verifyMisbehaviour, hb, hm, fromOption,
          except_bind_ok, except_bind_error, except_throw_eq, except_pure_eq]
      | some t1 =>
        refine ⟨.emptyHeaders, ?_, rfl⟩
        simp [verify_client_message, verifyMisbehaviour, hb, hm, h2, maxByNumber_nil,
          fromOption, except_bind_ok, except_bind_error, except_throw_eq, except_pure_eq]

/-- C10, witness: a misbehaviour message whose first proof has no headers
(and distinct block hashes) is rejected with a typed, non-fatal error. -/
theorem c10_misbehaviour_empty_headers_typed_error_witness :
    ∃ e, verify_client_message
        ⟨fun _ => none, fun _ _ _ => false, fun _ => false, fun _ => none,
         fun _ => none, fun _ _ _ => .error .extraction, fun _ _ => .ok ()⟩
        ⟨1, 2, 0, 0, 0, none, []⟩
        (.misbehaviour ⟨⟨1, [], []⟩, ⟨2, [], []⟩⟩) = .error e ∧
      e.isFatal = false :=
  c10_misbehaviour_empty_headers_typed_error _ _ _ (Or.inl rfl)

/-! ### Claim C4: the height sanity and no-rewind guards of `update_state` -/

/-- C4.  For every `Header` message whose finalized ancestry reconstructs as
`fin` and whose target header (located at `finality_proof.block` in the
batch) has a number different from
`latest_relay_height + fin.length - 1`, or a number not exceeding
`latest_relay_height`, `update_state` returns an error — the client state is
not advanced (the function only yields a new state through `.ok`).  In
particular any header whose target number is ≤ the current
`latest_relay_height` is rejected. -/
theorem c4_update_state_height_guard (env : Env) (ctx : Ctx) (cs : ClientState)
    (hdr : GrandpaHeader) (t : RelayChainHeader) (fin : List Nat)
    (hfin : (AncestryChain.new hdr.finality_proof.unknown_headers).ancestry
      cs.latest_relay_hash hdr.finality_proof.block = .ok fin)
    (ht : (AncestryChain.new hdr.finality_proof.unknown_headers).header
      hdr.finality_proof.block = some t)
    (hbad : t.number ≠ cs.latest_relay_height + fin.length - 1 ∨
            t.number ≤ cs.latest_relay_height) :
    ∃ e, update_state env ctx cs (.header hdr) = .error e := by
  cases hcol : collectConsensusStates env ctx cs.para_id
      (AncestryChain.new hdr.finality_proof.unknown_headers) fin
      hdr.parachain_headers with
  | error e =>
    exact ⟨e, by simp [update_state, hfin, hcol, Except.mapError,
      except_bind_ok, except_bind_error, except_throw_eq, except_pure_eq]⟩
  | ok out =>
    by_cases hmm : cs.latest_relay_height + fin.length - 1 ≠ t.number
    · exact ⟨.heightMismatch,
        by simp [update_state, hfin, hcol, ht, fromOption, hmm, Except.mapError,
          except_bind_ok, except_bind_error, except_throw_eq, except_pure_eq]⟩
    · have hle : t.number ≤ cs.latest_relay_height := by
        rcases hbad with hb1 | hb2
        · exact absurd (by omega : cs.latest_relay_height + fin.length - 1 ≠ t.number) hmm
        · exact hb2
      exact ⟨.relayRewind,
        by simp [update_state, hfin, hcol, ht, fromOption, hmm, hle, Except.mapError,
          except_bind_ok, except_bind_error, except_throw_eq, except_pure_eq]⟩

/-- C4, witness: a header whose reconstructed path has length 2 but whose
target claims number 9 against a client at relay height 5 (so the expected
number is 6) is rejected. -/
theorem c4_update_state_height_guard_witness :
    ∃ e, update_state
        ⟨fun _ => none, fun _ _ _ => false, fun _ => false, fun _ => none,
         fun _ => none, fun _ _ _ => .error .extraction, fun _ _ => .ok ()⟩
        ⟨fun _ => false, fun _ => none, 0⟩
        ⟨0, 0, 100, 5, 0, none, [⟨0, 0, 1, []⟩]⟩
        (.header ⟨⟨101, [], [⟨9, 100, 0, 101⟩]⟩, [], (0, 0)⟩) = .error e :=
  c4_update_state_height_guard _ _ _ _ ⟨9, 100, 0, 101⟩ [101, 100]
    rfl rfl (Or.inl (by decide))

/-! ### Claim C3: no-rewind monotonicity of `update_state` -/

/-- In a `Pairwise`-related list, the head is related (or equal) to the
last element. -/
theorem pairwise_head_getLast {R : α → α → Prop} {l : List α}
    (hp : l.Pairwise R) {a b : α} (ha : l.head? = some a)
    (hb : l.getLast? = some b) : a = b ∨ R a b := by
  cases l with
  | nil => cases ha
  | cons x xs =>
    have hax : a = x := by simpa using ha.symm
    subst hax
    cases xs with
    | nil => left; simpa using hb
    | cons y ys =>
      right
      have hb2 : (y :: ys).getLast? = some b := by simpa using hb
      exact (List.pairwise_cons.mp hp).1 b (List.mem_of_getLast?_eq_some hb2)

/-- Every successful `update_state` call strictly advances the relay
cursor, never decreases the parachain cursor, and strictly advances the
parachain cursor whenever it emits at least one consensus state. -/
theorem update_state_ok_inv (env : Env) (ctx : Ctx) (cs : ClientState)
    (msg : ClientMessage) (cs' : ClientState)
    (out : List ((Nat × Nat) × CState))
    (h : update_state env ctx cs msg = .ok (cs', out)) :
    cs.latest_relay_height < cs'.latest_relay_height ∧
      cs.latest_para_height ≤ cs'.latest_para_height ∧
      (out ≠ [] → cs.latest_para_height < cs'.latest_para_height) := by
  cases msg with
  | misbehaviour m => exact absurd h (by simp [update_state])
  | header hdr =>
    simp only [update_state] at h
    cases hfin : (AncestryChain.new hdr.finality_proof.unknown_headers).ancestry
        cs.latest_relay_hash hdr.finality_proof.block with
    | error e =>
      rw [hfin] at h
      simp [Except.mapError, except_bind_error] at h
    | ok fin =>
      rw [hfin] at h
      simp only [Except.mapError, except_bind_ok] at h
      cases hcol : collectConsensusStates env ctx cs.para_id
          (AncestryChain.new hdr.finality_proof.unknown_headers) fin
          hdr.parachain_headers with
      | error e =>
        rw [hcol] at h
        simp [except_bind_error] at h
      | ok outs =>
        rw [hcol] at h
        simp only [except_bind_ok] at h
        cases hhdr : (AncestryChain.new hdr.finality_proof.unknown_headers).header
            hdr.finality_proof.block with
        | none =>
          rw [hhdr] at h
          simp [fromOption, except_bind_error] at h
        | some t =>
          rw [hhdr] at h
          simp only [fromOption, except_bind_ok] at h
          by_cases hmm : cs.latest_relay_height + fin.length - 1 ≠ t.number
          · simp [hmm, except_bind_error, except_throw_eq] at h
          · rw [if_neg hmm] at h
            simp only [except_pure_eq, except_bind_ok] at h
            by_cases hle : t.number ≤ cs.latest_relay_height
            · simp [hle, except_bind_error, except_throw_eq] at h
            · rw [if_neg hle] at h
              try simp only [except_pure_eq, except_bind_ok] at h
              set heights :=
                List.insertionSort (fun a b => a ≤ b) (outs.map (fun p => p.1.2)) with hh
              cases hhd : heights.head? with
              | none =>
                rw [hhd] at h
                have houts : outs = [] := by
                  have : heights = [] := List.head?_eq_none_iff.mp hhd
                  have hlen := congrArg List.length this
                  simp [hh] at hlen
                  simpa using hlen
                cases hlast : heights.getLast? with
                | none =>
                  rw [hlast] at h
                  simp only [except_pure_eq, except_bind_ok, except_pure_eq] at h
                  cases hsc : env.findScheduledChange t with
                  | none =>
                    rw [hsc] at h
                    simp only [Except.ok.injEq, Prod.mk.injEq] at h
                    obtain ⟨hcs, hout⟩ := h
                    subst hcs
                    refine ⟨by simpa using Nat.lt_of_not_le hle, by simp, ?_⟩
                    intro hne
                    exact absurd (hout ▸ houts) hne
                  | some sc =>
                    rw [hsc] at h
                    simp only [Except.ok.injEq, Prod.mk.injEq] at h
                    obtain ⟨hcs, hout⟩ := h
                    subst hcs
                    refine ⟨by simpa using Nat.lt_of_not_le hle, by simp, ?_⟩
                    intro hne
                    exact absurd (hout ▸ houts) hne
                | some b =>
                  rw [hlast] at h
                  simp only [except_pure_eq, except_bind_ok] at h
                  exact absurd (List.getLast?_eq_none_iff.mpr (List.head?_eq_none_iff.mp hhd))
                    (by simp [hlast])
              | some minH =>
                rw [hhd] at h
                cases hlast : heights.getLast? with
                | none =>
                  rw [hlast] at h
                  exact absurd (List.head?_eq_none_iff.mpr (List.getLast?_eq_none_iff.mp hlast))
                    (by simp [hhd])
                | some maxH =>
                  rw [hlast] at h
                  by_cases hpr : minH ≤ cs.latest_para_height
                  · simp [hpr, except_bind_error, except_throw_eq] at h
                  · simp only [if_neg hpr, except_pure_eq, except_bind_ok] at h
                    have hmin_max : minH ≤ maxH := by
                      have hsorted : heights.Pairwise (fun a b => a ≤ b) := by
                        rw [hh]
                        exact List.sorted_insertionSort _ _
                      rcases pairwise_head_getLast hsorted hhd hlast with heq | hR
                      · omega
                      · exact hR
                    cases hsc : env.findScheduledChange t with
                    | none =>
                      rw [hsc] at h
                      simp only [Except.ok.injEq, Prod.mk.injEq] at h
                      obtain ⟨hcs, hout⟩ := h
                      subst hcs
                      exact ⟨by simpa using Nat.lt_of_not_le hle,
                        by simp; omega, fun _ => by simp; omega⟩
                    | some sc =>
                      rw [hsc] at h
                      simp only [Except.ok.injEq, Prod.mk.injEq] at h
                      obtain ⟨hcs, hout⟩ := h
                      subst hcs
                      exact ⟨by simpa using Nat.lt_of_not_le hle,
                        by simp; omega, fun _ => by simp; omega⟩

/-- C3.  For any sequence of successful `update_state` calls starting from
any client state, `latest_relay_height` and `latest_para_height` are
non-decreasing across the sequence (the relay cursor in fact strictly
increases at every successful call), and `latest_para_height` strictly
increases in every call that emits at least one new consensus state. -/
theorem c3_no_rewind (env : Env) :
    (∀ ctx cs msg cs' out, update_state env ctx cs msg = .ok (cs', out) →
        cs.latest_relay_height ≤ cs'.latest_relay_height ∧
        cs.latest_para_height ≤ cs'.latest_para_height ∧
        (out ≠ [] → cs.latest_para_height < cs'.latest_para_height)) ∧
    (∀ cs msgs cs', updateTrace env cs msgs = .ok cs' →
        cs.latest_relay_height ≤ cs'.latest_relay_height ∧
        cs.latest_para_height ≤ cs'.latest_para_height) := by
  constructor
  · intro ctx cs msg cs' out h
    obtain ⟨h1, h2, h3⟩ := update_state_ok_inv env ctx cs msg cs' out h
    exact ⟨Nat.le_of_lt h1, h2, h3⟩
  · intro cs msgs
    induction msgs generalizing cs with
    | nil =>
      intro cs' h
      simp [updateTrace] at h
      simp [h]
    | cons p rest ih =>
      intro cs' h
      unfold updateTrace at h
      cases hstep : update_state env p.1 cs p.2 with
      | error e => rw [hstep] at h; simp [except_bind_error] at h
      | ok r =>
        rw [hstep] at h
        simp only [except_bind_ok] at h
        obtain ⟨h1, h2, _⟩ := update_state_ok_inv env p.1 cs p.2 r.1 r.2
          (by rw [hstep])
        obtain ⟨g1, g2⟩ := ih r.1 cs' h
        exact ⟨Nat.le_trans (Nat.le_of_lt h1) g1, Nat.le_trans h2 g2⟩

/-- C3, witness: one successful concrete update from relay height 5 to 6
keeps both cursors monotone. -/
theorem c3_no_rewind_witness :
    (⟨0, 0, 100, 5, 0, none, [⟨0, 0, 1, []⟩]⟩ : ClientState).latest_relay_height ≤
        (⟨0, 0, 101, 6, 0, none, [⟨0, 0, 1, []⟩]⟩ : ClientState).latest_relay_height ∧
      (⟨0, 0, 100, 5, 0, none, [⟨0, 0, 1, []⟩]⟩ : ClientState).latest_para_height ≤
        (⟨0, 0, 101, 6, 0, none, [⟨0, 0, 1, []⟩]⟩ : ClientState).latest_para_height :=
  (c3_no_rewind
      ⟨fun _ => none, fun _ _ _ => false, fun _ => false, fun _ => none,
       fun _ => none, fun _ _ _ => .error .extraction, fun _ _ => .ok ()⟩).2
    ⟨0, 0, 100, 5, 0, none, [⟨0, 0, 1, []⟩]⟩
    [(⟨fun _ => false, fun _ => none, 0⟩,
      .header ⟨⟨101, [], [⟨6, 100, 0, 101⟩]⟩, [], (0, 0)⟩)]
    ⟨0, 0, 101, 6, 0, none, [⟨0, 0, 1, []⟩]⟩ rfl

/-! ### Claim C7: skip semantics of the consensus-state collection loop -/

/-- C7.  In the collection loop of `update_state`: an entry whose relay hash
is not in the finalized path is skipped without producing a consensus state
and without raising an error; an entry whose relay hash is finalized, whose
header resolves and whose derived height is already stored by the host is
likewise skipped silently; and every accumulated `(height, state)` pair
comes from an entry whose relay hash is finalized, whose header is present,
whose extraction succeeded, and whose height was not already stored. -/
theorem c7_collect_skip (env : Env) (ctx : Ctx) (pid : Nat)
    (anc : AncestryChain) (fin : List Nat) :
    (∀ rh pf rest, rh ∉ fin →
        collectConsensusStates env ctx pid anc fin ((rh, pf) :: rest) =
          collectConsensusStates env ctx pid anc fin rest) ∧
    (∀ rh pf rest hdr hc, rh ∈ fin → anc.header rh = some hdr →
        env.fromHeader pf pid hdr.state_root = .ok hc →
        ctx.hasConsensusState hc.1 = true →
        collectConsensusStates env ctx pid anc fin ((rh, pf) :: rest) =
          collectConsensusStates env ctx pid anc fin rest) ∧
    (∀ entries res, collectConsensusStates env ctx pid anc fin entries = .ok res →
        ∀ hc ∈ res, ctx.hasConsensusState hc.1 = false ∧
          ∃ rh pf, (rh, pf) ∈ entries ∧ rh ∈ fin ∧
            ∃ hdr, anc.header rh = some hdr ∧
              env.fromHeader pf pid hdr.state_root = .ok hc) := by
  refine ⟨?_, ?_, ?_⟩
  · intro rh pf rest h
    simp [collectConsensusStates, h]
  · intro rh pf rest hdr hc hin hh hf hs
    simp [collectConsensusStates, hin, hh, hf, hs, fromOption, except_bind_ok]
  · intro entries
    induction entries with
    | nil =>
      intro res h hc hmem
      simp [collectConsensusStates] at h
      subst h
      simp at hmem
    | cons e rest ih =>
      intro res h hc hmem
      obtain ⟨rh, pf⟩ := e
      by_cases hin : rh ∈ fin
      · rw [collectConsensusStates, if_pos hin] at h
        cases hh : anc.header rh with
        | none =>
          rw [hh] at h
          simp [fromOption, except_bind_error] at h
        | some hdr =>
          rw [hh] at h
          simp only [fromOption, except_bind_ok] at h
          cases hf : env.fromHeader pf pid hdr.state_root with
          | error e2 =>
            rw [hf] at h
            simp [except_bind_error] at h
          | ok hc0 =>
            rw [hf] at h
            simp only [except_bind_ok] at h
            by_cases hstored : ctx.hasConsensusState hc0.1
            · rw [if_pos hstored] at h
              obtain ⟨hs1, rh2, pf2, hmem2, hrest2⟩ := ih res h hc hmem
              exact ⟨hs1, rh2, pf2, List.mem_cons_of_mem _ hmem2, hrest2⟩
            · rw [if_neg hstored] at h
              cases hrest : collectConsensusStates env ctx pid anc fin rest with
              | error e2 =>
                rw [hrest] at h
                simp [except_bind_error] at h
              | ok out2 =>
                rw [hrest] at h
                simp only [except_bind_ok, except_pure_eq, Except.ok.injEq] at h
                subst h
                rcases List.mem_cons.mp hmem with heq | hmem2
                · subst heq
                  exact ⟨by simpa using hstored, rh, pf, List.mem_cons_self _ _,
                    hin, hdr, hh, hf⟩
                · obtain ⟨hs1, rh2, pf2, hmem3, hrest3⟩ := ih out2 hrest hc hmem2
                  exact ⟨hs1, rh2, pf2, List.mem_cons_of_mem _ hmem3, hrest3⟩
      · rw [collectConsensusStates, if_neg hin] at h
        obtain ⟨hs1, rh2, pf2, hmem2, hrest2⟩ := ih res h hc hmem
        exact ⟨hs1, rh2, pf2, List.mem_cons_of_mem _ hmem2, hrest2⟩

/-- C7, witness: an entry whose relay hash 5 is outside the finalized path
`[1, 2]` is skipped, leaving the loop result unchanged. -/
theorem c7_collect_skip_witness :
    collectConsensusStates
        ⟨fun _ => none, fun _ _ _ => false, fun _ => false, fun _ => none,
         fun _ => none, fun _ _ _ => .error .extraction, fun _ _ => .ok ()⟩
        ⟨fun _ => false, fun _ => none, 0⟩ 0 (AncestryChain.new []) [1, 2]
        [(5, 0)] =
      collectConsensusStates
        ⟨fun _ => none, fun _ _ _ => false, fun _ => false, fun _ => none,
         fun _ => none, fun _ _ _ => .error .extraction, fun _ _ => .ok ()⟩
        ⟨fun _ => false, fun _ => none, 0⟩ 0 (AncestryChain.new []) [1, 2] [] :=
  (c7_collect_skip _ _ _ _ _).1 5 0 [] (by decide)

/-! ### Claim C2: success condition of misbehaviour verification -/

/-- C2.  For every `Misbehaviour` message that passes all structural checks
(distinct blocks; targets matching the proof blocks; equal base parent
hashes; diverging finalized paths; known common-ancestor parent; decodable
justifications whose commit target hashes match the proof blocks),
`verify_client_message` succeeds if and only if some candidate base number
(`b1.number`, or `b2.number` when the two differ) makes both justifications
verify, with the target heights recomputed as
`base_number + finalized_len - 1` on each side and the authority sets
resolved from the ledger at those heights; otherwise it returns the
invalid-justification error. -/
theorem c2_misbehaviour_iff (env : Env) (cs : ClientState)
    (fp1 fp2 : FinalityProof) (t1 t2 b1 b2 : RelayChainHeader)
    (f1 f2 : List Nat) (j1 j2 : Justification)
    (hblock : fp1.block ≠ fp2.block)
    (ht1 : maxByNumber fp1.unknown_headers = some t1)
    (ht2 : maxByNumber fp2.unknown_headers = some t2)
    (hhash1 : t1.hash = fp1.block) (hhash2 : t2.hash = fp2.block)
    (hb1 : minByNumber fp1.unknown_headers = some b1)
    (hb2 : minByNumber fp2.unknown_headers = some b2)
    (hf1 : (AncestryChain.new fp1.unknown_headers).ancestry b1.hash t1.hash = .ok f1)
    (hf2 : (AncestryChain.new fp2.unknown_headers).ancestry b2.hash t2.hash = .ok f2)
    (hpar : b1.parent_hash = b2.parent_hash)
    (hdiv : (f1.zip f2).any (fun p => p.1 ≠ p.2) = true)
    (hknown : env.containsRelayHeaderHash b1.parent_hash = true)
    (hj1 : env.decodeJustification fp1.justification = some j1)
    (hj2 : env.decodeJustification fp2.justification = some j2)
    (hjt1 : fp1.block = j1.commit_target_hash)
    (hjt2 : fp2.block = j2.commit_target_hash) :
    (verify_client_message env cs (.misbehaviour ⟨fp1, fp2⟩) = .ok () ↔
      ∃ bn ∈ (if b1.number = b2.number then [b1.number] else [b1.number, b2.number]),
        candidateValid env cs j1 j2 f1.length f2.length bn = true) ∧
    (¬(∃ bn ∈ (if b1.number = b2.number then [b1.number] else [b1.number, b2.number]),
        candidateValid env cs j1 j2 f1.length f2.length bn = true) →
      verify_client_message env cs (.misbehaviour ⟨fp1, fp2⟩) =
        .error .invalidJustification) := by
  simp only [verify_client_message, verifyMisbehaviour, ht1, ht2, hb1, hb2, hj1, hj2,
    fromOption, except_bind_ok, except_bind_error, except_throw_eq, except_pure_eq,
    if_neg hblock]
  rw [if_neg (show ¬(t1.hash ≠ fp1.block ∨ t2.hash ≠ fp2.block) by
    simp [hhash1, hhash2])]
  rw [hf1, hf2]
  simp only [Except.mapError, except_bind_ok]
  rw [if_neg (show ¬(b1.parent_hash ≠ b2.parent_hash) by simp [hpar])]
  rw [if_neg (show ¬¬((f1.zip f2).any (fun p => p.1 ≠ p.2) = true) from
    not_not_intro hdiv)]
  rw [if_neg (show ¬¬(env.containsRelayHeaderHash b1.parent_hash = true) from
    not_not_intro hknown)]
  rw [if_neg (show ¬(fp1.block ≠ j1.commit_target_hash ∨
      fp2.block ≠ j2.commit_target_hash) by simp [hjt1, hjt2])]
  by_cases hany : (if b1.number = b2.number then [b1.number] else [b1.number, b2.number]).any
      (candidateValid env cs j1 j2 f1.length f2.length) = true
  · rw [if_pos hany]
    have hex : ∃ bn ∈ (if b1.number = b2.number then [b1.number]
        else [b1.number, b2.number]),
        candidateValid env cs j1 j2 f1.length f2.length bn = true := by
      simpa using List.any_eq_true.mp hany
    exact ⟨iff_of_true rfl hex, fun hnex => absurd hex hnex⟩
  · rw [if_neg hany]
    have hnex : ¬∃ bn ∈ (if b1.number = b2.number then [b1.number]
        else [b1.number, b2.number]),
        candidateValid env cs j1 j2 f1.length f2.length bn = true := by
      intro hex
      exact hany (List.any_eq_true.mpr (by simpa using hex))
    exact ⟨iff_of_false (by simp) hnex, fun _ => rfl⟩

/-- A concrete environment for the C2 witness: every justification bytes
list decodes to a justification targeting its first byte, every
justification verifies, and relay hash 0 is known to the host. -/
def c2env : Env :=
  ⟨fun bs => some ⟨bs.headD 0, 0⟩, fun _ _ _ => true, fun h => decide (h = 0),
   fun _ => none, fun _ => none, fun _ _ _ => .error .extraction,
   fun _ _ => .ok ()⟩

/-- First finality proof of the C2 witness: a two-block chain
`0 ← 11 ← 12` finalizing block 12. -/
def c2fp1 : FinalityProof := ⟨12, [12], [⟨1, 0, 0, 11⟩, ⟨2, 11, 0, 12⟩]⟩

/-- Second finality proof of the C2 witness: a conflicting two-block chain
`0 ← 21 ← 22` finalizing block 22, rooted at the same parent 0. -/
def c2fp2 : FinalityProof := ⟨22, [22], [⟨1, 0, 0, 21⟩, ⟨2, 21, 0, 22⟩]⟩

/-- C2, witness: on the concrete equivocation built from `c2fp1`/`c2fp2`
(all structural checks pass and candidate base number 1 makes both
justifications verify) misbehaviour verification succeeds. -/
theorem c2_misbehaviour_iff_witness :
    verify_client_message c2env ⟨0, 0, 0, 0, 0, none, [⟨0, 0, 1, []⟩]⟩
      (.misbehaviour ⟨c2fp1, c2fp2⟩) = .ok () :=
  (c2_misbehaviour_iff c2env ⟨0, 0, 0, 0, 0, none, [⟨0, 0, 1, []⟩]⟩
      c2fp1 c2fp2 ⟨2, 11, 0, 12⟩ ⟨2, 21, 0, 22⟩ ⟨1, 0, 0, 11⟩ ⟨1, 0, 0, 21⟩
      [12, 11] [22, 21] ⟨12, 0⟩ ⟨22, 0⟩
      (by decide) rfl rfl rfl rfl rfl rfl rfl rfl rfl rfl rfl rfl rfl rfl
      rfl).1.mpr ⟨1, by decide, rfl⟩

/-! ### Claim C6: what `check_for_misbehaviour` inspects -/

/-- Environment for the C6 counterexample: the relay header with hash 77
carries a forced authority-set change; extraction always fails (it is never
reached). -/
def c6env : Env :=
  ⟨fun _ => none, fun _ _ _ => false, fun _ => false, fun _ => none,
   fun h => if h.hash = 77 then some ⟨0, []⟩ else none,
   fun _ _ _ => .error .extraction, fun _ _ => .ok ()⟩

/-- The C6 counterexample message: its `unknown_headers` batch contains the
forced-change header 77, but the `parachain_headers` map is empty. -/
def c6msg : GrandpaHeader := ⟨⟨0, [], [⟨1, 0, 0, 77⟩]⟩, [], (0, 0)⟩

/-- C6, counterexample.  The Header message `c6msg` contains a relay header
with a forced authority-set change, yet `check_for_misbehaviour` returns
`false`: the loop only inspects relay headers referenced by the
`parachain_headers` map, and that map is empty here.  This refutes the
claim's clause "any relay header in the Header message". -/
theorem c6_counterexample :
    (⟨1, 0, 0, 77⟩ : RelayChainHeader) ∈ c6msg.finality_proof.unknown_headers ∧
    (c6env.findForcedChange ⟨1, 0, 0, 77⟩).isSome = true ∧
    check_for_misbehaviour c6env ⟨fun _ => false, fun _ => none, 0⟩
      ⟨0, 0, 0, 0, 0, none, [⟨0, 0, 1, []⟩]⟩ (.header c6msg) = .ok false :=
  ⟨by decide, by decide, rfl⟩

/-- The inspection loop never errors and reports misbehaviour exactly on a
referenced forced change or a conflicting stored consensus state, provided
every referenced relay hash resolves and extraction succeeds on it. -/
theorem checkLoop_iff (env : Env) (ctx : Ctx) (cs : ClientState)
    (anc : AncestryChain) (entries : List (Nat × Nat))
    (hres : ∀ p ∈ entries, ∃ rhdr, anc.header p.1 = some rhdr ∧
        ∃ hc, env.fromHeader p.2 cs.para_id rhdr.state_root = .ok hc) :
    (checkLoop env ctx cs anc entries = .ok true ∨
      checkLoop env ctx cs anc entries = .ok false) ∧
    (checkLoop env ctx cs anc entries = .ok true ↔
      ∃ p ∈ entries, ∃ rhdr, anc.header p.1 = some rhdr ∧
        ((env.findForcedChange rhdr).isSome = true ∨
          ∃ hc, env.fromHeader p.2 cs.para_id rhdr.state_root = .ok hc ∧
            ∃ stored, ctx.maybeConsensusState hc.1 = some stored ∧
              stored ≠ hc.2)) := by
  induction entries with
  | nil =>
    refine ⟨Or.inr rfl, ?_⟩
    simp [checkLoop]
  | cons e rest ih =>
    obtain ⟨rh, pf⟩ := e
    obtain ⟨rhdr, hh, hc, hf⟩ := hres (rh, pf) (List.mem_cons_self _ _)
    have hrest := ih (fun p hp => hres p (List.mem_cons_of_mem _ hp))
    by_cases hforced : (env.findForcedChange rhdr).isSome = true
    · have hloop : checkLoop env ctx cs anc ((rh, pf) :: rest) = .ok true := by
        simp [checkLoop, hh, hforced, fromOption, except_bind_ok, except_pure_eq]
      refine ⟨Or.inl hloop, ?_⟩
      rw [hloop]
      simp only [true_iff]
      exact ⟨(rh, pf), List.mem_cons_self _ _, rhdr, hh, Or.inl hforced⟩
    · have hstep : checkLoop env ctx cs anc ((rh, pf) :: rest) =
          (match ctx.maybeConsensusState hc.1 with
            | some stored =>
              if stored ≠ hc.2 then .ok true
              else checkLoop env ctx cs anc rest
            | none => checkLoop env ctx cs anc rest) := by
        simp [checkLoop, hh, hforced, hf, fromOption, except_bind_ok, except_pure_eq]
      cases hm : ctx.maybeConsensusState hc.1 with
      | some stored =>
        by_cases hne : stored ≠ hc.2
        · have hloop : checkLoop env ctx cs anc ((rh, pf) :: rest) = .ok true := by
            rw [hstep, hm]; exact if_pos hne
          refine ⟨Or.inl hloop, ?_⟩
          rw [hloop]
          simp only [true_iff]
          exact ⟨(rh, pf), List.mem_cons_self _ _, rhdr, hh,
            Or.inr ⟨hc, hf, stored, hm, hne⟩⟩
        · have hloop : checkLoop env ctx cs anc ((rh, pf) :: rest) =
              checkLoop env ctx cs anc rest := by
            rw [hstep, hm]; exact if_neg hne
          refine ⟨hloop ▸ hrest.1, ?_⟩
          rw [hloop, hrest.2]
          constructor
          · rintro ⟨p, hp, rest2⟩
            exact ⟨p, List.mem_cons_of_mem _ hp, rest2⟩
          · rintro ⟨p, hp, rhdr2, hh2, hcase⟩
            rcases List.mem_cons.mp hp with heq | hp2
            · exfalso
              subst heq
              rw [hh] at hh2
              cases hh2
              rcases hcase with hforced2 | ⟨hc2, hf2, stored2, hm2, hne2⟩
              · exact hforced hforced2
              · rw [hf] at hf2
                cases hf2
                rw [hm] at hm2
                cases hm2
                exact hne2 (by simpa using hne)
            · exact ⟨p, hp2, rhdr2, hh2, hcase⟩
      | none =>
        have hloop : checkLoop env ctx cs anc ((rh, pf) :: rest) =
            checkLoop env ctx cs anc rest := by
          rw [hstep, hm]
        refine ⟨hloop ▸ hrest.1, ?_⟩
        rw [hloop, hrest.2]
        constructor
        · rintro ⟨p, hp, rest2⟩
          exact ⟨p, List.mem_cons_of_mem _ hp, rest2⟩
        · rintro ⟨p, hp, rhdr2, hh2, hcase⟩
          rcases List.mem_cons.mp hp with heq | hp2
          · exfalso
            subst heq
            rw [hh] at hh2
            cases hh2
            rcases hcase with hforced2 | ⟨hc2, hf2, stored2, hm2, hne2⟩
            · exact hforced hforced2
            · rw [hf] at hf2
              cases hf2
              rw [hm] at hm2
              cases hm2
          · exact ⟨p, hp2, rhdr2, hh2, hcase⟩

/-- C6, amended.  `check_for_misbehaviour` returns `true` exactly when the
message is a `Misbehaviour` variant, or some relay header REFERENCED BY the
`parachain_headers` map carries a forced authority-set change, or some
derived consensus state at a height the host already stores differs from
the stored value — provided every referenced relay hash resolves to a
header of the batch and extraction succeeds on it (a missing referenced
header or failing extraction is a typed error, not `false`).  Relay headers
of `unknown_headers` that the map does not reference are not examined.  The
function never mutates the client state (its type returns only the flag). -/
theorem c6_check_for_misbehaviour_iff (env : Env) (ctx : Ctx)
    (cs : ClientState) :
    (∀ m, check_for_misbehaviour env ctx cs (.misbehaviour m) = .ok true) ∧
    (∀ hdr : GrandpaHeader,
      (∀ p ∈ hdr.parachain_headers, ∃ rhdr,
          (AncestryChain.new hdr.finality_proof.unknown_headers).header p.1 =
            some rhdr ∧
          ∃ hc, env.fromHeader p.2 cs.para_id rhdr.state_root = .ok hc) →
      (check_for_misbehaviour env ctx cs (.header hdr) = .ok true ↔
        ∃ p ∈ hdr.parachain_headers, ∃ rhdr,
          (AncestryChain.new hdr.finality_proof.unknown_headers).header p.1 =
            some rhdr ∧
          ((env.findForcedChange rhdr).isSome = true ∨
            ∃ hc, env.fromHeader p.2 cs.para_id rhdr.state_root = .ok hc ∧
              ∃ stored, ctx.maybeConsensusState hc.1 = some stored ∧
                stored ≠ hc.2))) := by
  refine ⟨fun m => rfl, fun hdr hres => ?_⟩
  exact (checkLoop_iff env ctx cs
    (AncestryChain.new hdr.finality_proof.unknown_headers)
    hdr.parachain_headers hres).2

/-- C6, witness: on the counterexample message (whose map is empty, so the
hypothesis holds vacuously), the characterisation shows the result is not
`true`. -/
theorem c6_check_for_misbehaviour_iff_witness :
    check_for_misbehaviour c6env ⟨fun _ => false, fun _ => none, 0⟩
      ⟨0, 0, 0, 0, 0, none, [⟨0, 0, 1, []⟩]⟩ (.header c6msg) = .ok true ↔
    ∃ p ∈ c6msg.parachain_headers, ∃ rhdr,
      (AncestryChain.new c6msg.finality_proof.unknown_headers).header p.1 =
        some rhdr ∧
      ((c6env.findForcedChange rhdr).isSome = true ∨
        ∃ hc, c6env.fromHeader p.2
            (⟨0, 0, 0, 0, 0, none, [⟨0, 0, 1, []⟩]⟩ : ClientState).para_id
            rhdr.state_root = .ok hc ∧
          ∃ stored,
            (⟨fun _ => false, fun _ => none, 0⟩ : Ctx).maybeConsensusState hc.1 =
              some stored ∧ stored ≠ hc.2) :=
  (c6_check_for_misbehaviour_iff c6env ⟨fun _ => false, fun _ => none, 0⟩
    ⟨0, 0, 0, 0, 0, none, [⟨0, 0, 1, []⟩]⟩).2 c6msg (by simp [c6msg])

/-! ### Claim C5: pruning behaviour on timestamp overflow -/

/-- The C5 failing ledger: 101 entries, so exactly the oldest entry falls
outside the `AUTHORITIES_CHANGE_ITEM_MIN_COUNT` protected tail.  The oldest
entry's timestamp is `2 ^ 64 - 1` ns, so its expiry computation
`timestamp + AUTHORITIES_CHANGE_ITEM_LIFETIME` overflows `u64`; the other
100 entries are fresh. -/
def c5Ledger : List AuthoritiesChange :=
  ⟨1, U64MOD - 1, 0, []⟩ ::
    (List.range 100).map (fun i => ⟨i + 2, 1000000, i + 1, []⟩)

/-- The C5 host timestamp: 1 second past the epoch (any value above 1 ns
triggers the bug). -/
def c5now : Nat := 1000000000

/-- C5.  The pruning filter of `update_state` DROPS the entry whose expiry
computation overflows: the source substitutes a 1 ns deadline on overflow
(`unwrap_or_else(|_| Timestamp::from_nanoseconds(1).unwrap())`), and
`check_expiry` then reports `Expired` for every host time past 1 ns, so the
entry is pruned — the opposite of the claim and of the source's own comment
"do not remove the entry on overflow". -/
theorem c5_pruning_drops_overflow :
    (⟨1, U64MOD - 1, 0, []⟩ : AuthoritiesChange) ∈ c5Ledger ∧
    U64MOD ≤ (U64MOD - 1) + AUTHORITIES_CHANGE_ITEM_LIFETIME ∧
    1 < c5now ∧
    pruneAuthoritiesChanges c5now c5Ledger =
      (List.range 100).map (fun i => ⟨i + 2, 1000000, i + 1, []⟩) ∧
    (⟨1, U64MOD - 1, 0, []⟩ : AuthoritiesChange) ∉
      pruneAuthoritiesChanges c5now c5Ledger := by
  refine ⟨List.mem_cons_self _ _, by decide, by decide, by decide, by decide⟩

/-! ### Claim C8: upgrade height guard and the merged client state -/

/-- C8.  `verify_upgrade_and_update_state` rejects whenever the upgrade
client state's latest height is ≤ the old client state's latest height; and
whenever it succeeds, the merged client state takes `relay_chain` from the
old state, takes `para_id`, `latest_relay_height`, `latest_relay_hash`,
`latest_para_height` and `authorities_changes` from the upgrade state, and
clears `frozen_height`; the emitted consensus state is the upgrade
consensus state. -/
theorem c8_upgrade_checks (uenv : UpgradeEnv) (ctx : Ctx)
    (old upg : ClientState) (upc : CState) (p1 p2 : List Nat) :
    (heightLeb (latest_height upg) (latest_height old) = true →
      verify_upgrade_and_update_state uenv ctx old upg upc p1 p2 =
        .error .upgradeHeightNotGreater) ∧
    (∀ res, verify_upgrade_and_update_state uenv ctx old upg upc p1 p2 =
        .ok res →
      res.1.relay_chain = old.relay_chain ∧ res.1.para_id = upg.para_id ∧
      res.1.latest_relay_height = upg.latest_relay_height ∧
      res.1.latest_relay_hash = upg.latest_relay_hash ∧
      res.1.latest_para_height = upg.latest_para_height ∧
      res.1.authorities_changes = upg.authorities_changes ∧
      res.1.frozen_height = none ∧ res.2 = upc) := by
  constructor
  · intro hle
    simp [verify_upgrade_and_update_state, hle, except_bind_error, except_throw_eq]
  · intro res h
    simp only [verify_upgrade_and_update_state] at h
    by_cases hle : heightLeb (latest_height upg) (latest_height old) = true
    · rw [if_pos hle] at h
      simp [except_bind_error, except_throw_eq] at h
    · rw [if_neg hle] at h
      simp only [except_pure_eq, except_bind_ok] at h
      cases hcons : ctx.maybeConsensusState (latest_height old) with
      | none =>
        rw [hcons] at h
        simp [fromOption, except_bind_error] at h
      | some cons =>
        rw [hcons] at h
        simp only [fromOption, except_bind_ok] at h
        cases hn1 : uenv.decodeNodes p1 with
        | none =>
          rw [hn1] at h
          simp [fromOption, except_bind_error] at h
        | some nodes1 =>
          rw [hn1] at h
          simp only [fromOption, except_bind_ok] at h
          cases hr1 : uenv.readProofCheck cons.root nodes1 CLIENT_STATE_UPGRADE_PATH with
          | none =>
            rw [hr1] at h
            simp [fromOption, except_bind_error] at h
          | some v1 =>
            rw [hr1] at h
            simp only [fromOption, except_bind_ok] at h
            cases ha1 : uenv.decodeAnyValue v1 with
            | none =>
              rw [ha1] at h
              simp [fromOption, except_bind_error] at h
            | some w1 =>
              rw [ha1] at h
              simp only [fromOption, except_bind_ok] at h
              by_cases hv1 : w1 ≠ uenv.encodeAnyClientState upg
              · rw [if_pos hv1] at h
                simp [except_bind_error, except_throw_eq] at h
              · rw [if_neg hv1] at h
                try simp only [except_pure_eq, except_bind_ok] at h
                cases hn2 : uenv.decodeNodes p2 with
                | none =>
                  rw [hn2] at h
                  simp [fromOption, except_bind_error] at h
                | some nodes2 =>
                  rw [hn2] at h
                  simp only [fromOption, except_bind_ok] at h
                  cases hr2 : uenv.readProofCheck cons.root nodes2
                      CONSENSUS_STATE_UPGRADE_PATH with
                  | none =>
                    rw [hr2] at h
                    simp [fromOption, except_bind_error] at h
                  | some v2 =>
                    rw [hr2] at h
                    simp only [fromOption, except_bind_ok] at h
                    cases ha2 : uenv.decodeAnyValue v2 with
                    | none =>
                      rw [ha2] at h
                      simp [fromOption, except_bind_error] at h
                    | some w2 =>
                      rw [ha2] at h
                      simp only [fromOption, except_bind_ok] at h
                      by_cases hv2 : w2 ≠ uenv.encodeAnyConsensusState upc
                      · rw [if_pos hv2] at h
                        simp [except_bind_error, except_throw_eq] at h
                      · rw [if_neg hv2] at h
                        simp only [except_pure_eq, Except.ok.injEq] at h
                        subst h
                        exact ⟨rfl, rfl, rfl, rfl, rfl, rfl, rfl, rfl⟩

/-- C8, witness: an upgrade whose latest height (0, 3) does not exceed the
old latest height (0, 5) is rejected. -/
theorem c8_upgrade_checks_witness :
    verify_upgrade_and_update_state
        ⟨fun _ => none, fun _ _ _ => none, fun _ => none, fun _ => [],
         fun _ => []⟩
        ⟨fun _ => false, fun _ => none, 0⟩
        ⟨0, 0, 0, 0, 5, none, []⟩ ⟨7, 0, 9, 9, 3, none, []⟩ ⟨0, 0⟩ [] [] =
      .error .upgradeHeightNotGreater :=
  (c8_upgrade_checks _ _ _ _ _ _ _).1 (by decide)

end GrandpaLC
